import Mathlib

/-!
Verification of the Korean embedding service (`korean_embeddings.py`) and the
Korean RAG Gemini response service (`korean-rag-gemini-service.py`).

The Python code is shallowly embedded: the external sentence-embedding model
and the on-disk pickle cache are modelled as explicit parameters/state
(`EmbedEnv`, `CacheState`), numpy vectors become `List α` (with `α := ℝ` for
the similarity helpers), and fallible operations return `Except`.
-/

/-- Python `not text or not text.strip()`: the text is empty or
whitespace-only, i.e. every character is whitespace (so stripping leaves
the empty, falsy string). -/
def isBlank (s : String) : Bool := s.data.all Char.isWhitespace

namespace KoreanEmbeddings

/-- Ambient parameters of a `KoreanEmbeddingService` instance together with
the behaviour of its external collaborators:
`modelName`/`embeddingDim` are the fields set at initialisation;
`md5hex` models `hashlib.md5(...).hexdigest()`;
`modelVec` is the (deterministic, per-text) output of `self.model.encode`
with `normalize_embeddings=True`;
`modelOk` tells whether a call to `self.model.encode` succeeds or raises;
`writeOk` tells whether writing a given cache file succeeds. -/
structure EmbedEnv (α : Type) where
  modelName : String
  embeddingDim : Nat
  md5hex : String → String
  modelVec : String → List α
  modelOk : Bool
  writeOk : String → Bool

variable {α : Type}

/-- Python `np.zeros(self.embedding_dim)`. -/
def zeroVec [Zero α] (env : EmbedEnv α) : List α :=
  List.replicate env.embeddingDim 0

/-- `_get_cache_key`: `hashlib.md5(f"{self.model_name}:{text}".encode()).hexdigest()`. -/
def get_cache_key (env : EmbedEnv α) (text : String) : String :=
  env.md5hex (env.modelName ++ ":" ++ text)

/-- A stored cache file: either a readable pickled vector or a corrupted /
unreadable entry (whose `pickle.load` raises). -/
inductive CacheEntry (α : Type) where
  | good : List α → CacheEntry α
  | corrupted : CacheEntry α
deriving DecidableEq

/-- The cache directory: an association list from cache key (file name) to the
stored entry; newer writes shadow older ones at the head. -/
abbrev CacheState (α : Type) := List (String × CacheEntry α)

/-- Look up the cache file for a key (`cache_file.exists()` plus its content). -/
def cacheFind (c : CacheState α) (k : String) : Option (CacheEntry α) :=
  (c.find? (fun e => e.1 == k)).map (fun e => e.2)

/-- The raw disk read performed inside `_get_from_cache`: `.ok none` when the
file does not exist, `.error ()` when `pickle.load` raises, `.ok (some v)`
for a readable entry. -/
def rawCacheRead (c : CacheState α) (k : String) : Except Unit (Option (List α)) :=
  match cacheFind c k with
  | none => .ok none
  | some .corrupted => .error ()
  | some (.good v) => .ok (some v)

/-- `_get_from_cache`: the `try/except` wrapper around the raw read — a failed
load is logged and treated as absence. -/
def get_from_cache (c : CacheState α) (k : String) : Option (List α) :=
  match rawCacheRead c k with
  | .error _ => none
  | .ok r => r

/-- The raw disk write performed inside `_save_to_cache`: `pickle.dump` either
replaces the file for `k` or raises. -/
def rawCacheWrite (env : EmbedEnv α) (c : CacheState α) (k : String) (v : List α) :
    Except Unit (CacheState α) :=
  if env.writeOk k then .ok ((k, .good v) :: c) else .error ()

/-- `_save_to_cache`: the `try/except` wrapper around the raw write — a failed
write is logged and swallowed, leaving the cache unchanged. -/
def save_to_cache (env : EmbedEnv α) (c : CacheState α) (k : String) (v : List α) :
    CacheState α :=
  match rawCacheWrite env c k v with
  | .error _ => c
  | .ok c' => c'

/-- `encode_single(text, use_cache)`: blank check, cache lookup, model call
(returning `np.zeros(self.embedding_dim)` if it raises), cache store.
Returns the vector together with the cache state after the call. -/
def encode_single [Zero α] (env : EmbedEnv α) (cache : CacheState α)
    (text : String) (useCache : Bool) : List α × CacheState α :=
  if isBlank text then (zeroVec env, cache)
  else
    match (if useCache then get_from_cache cache (get_cache_key env text) else none) with
    | some v => (v, cache)
    | none =>
      if env.modelOk then
        let v := env.modelVec text
        if useCache then (v, save_to_cache env cache (get_cache_key env text) v)
        else (v, cache)
      else (zeroVec env, cache)

/-- The first loop of `encode_batch` starting at position `i`: builds the
`embeddings` list (with `none` as the placeholder for uncached positions)
together with `uncached_texts` and `uncached_indices`. -/
def batchScan [Zero α] (env : EmbedEnv α) (cache : CacheState α) (useCache : Bool) :
    List String → Nat → List (Option (List α)) × List String × List Nat
  | [], _ => ([], [], [])
  | t :: ts, i =>
    let rest := batchScan env cache useCache ts (i + 1)
    if isBlank t then (some (zeroVec env) :: rest.1, rest.2.1, rest.2.2)
    else
      match (if useCache then get_from_cache cache (get_cache_key env t) else none) with
      | some v => (some v :: rest.1, rest.2.1, rest.2.2)
      | none => (none :: rest.1, t :: rest.2.1, i :: rest.2.2)

/-- One `self.model.encode(batch, ...)` call: fails when the model backend is
unavailable, otherwise embeds each text of the chunk. -/
def modelCall (env : EmbedEnv α) (chunk : List String) : Except Unit (List (List α)) :=
  if env.modelOk then .ok (chunk.map env.modelVec) else .error ()

/-- The chunking loop `for i in range(0, len(uncached_texts), batch_size)`:
concatenates the chunk results in order.  `batch_size = 0` models the
`ValueError` raised by `range` with step `0`. -/
def chunkEncode (env : EmbedEnv α) (batchSize : Nat) (ts : List String) :
    Except Unit (List (List α)) :=
  if hbs : batchSize = 0 then .error ()
  else if hts : ts = [] then .ok []
  else
    match modelCall env (ts.take batchSize) with
    | .error e => .error e
    | .ok r =>
      match chunkEncode env batchSize (ts.drop batchSize) with
      | .error e => .error e
      | .ok rest => .ok (r ++ rest)
termination_by ts.length
decreasing_by
  have h1 : 0 < ts.length := List.length_pos.mpr hts
  have h2 : 0 < batchSize := Nat.pos_of_ne_zero hbs
  simp only [List.length_drop]
  omega

/-- The scatter loop `for idx, embedding in zip(uncached_indices, batch_embeddings)`:
writes each computed embedding back to its position and stores it in the cache
under the key of `uncached_texts[uncached_indices.index(idx)]`.  The `Bool`
component records whether the loop completed without raising (a failed
`list.index` or list subscript aborts it, keeping the updates made so far). -/
def scatterStore (env : EmbedEnv α) (useCache : Bool) (uts : List String) (uis : List Nat) :
    List (Nat × List α) → List (Option (List α)) → CacheState α →
    List (Option (List α)) × CacheState α × Bool
  | [], es, c => (es, c, true)
  | (idx, emb) :: rest, es, c =>
    let es' := es.set idx (some emb)
    if useCache then
      match uis.findIdx? (fun j => j == idx) with
      | none => (es', c, false)
      | some j =>
        match uts[j]? with
        | none => (es', c, false)
        | some t =>
          scatterStore env useCache uts uis rest es'
            (save_to_cache env c (get_cache_key env t) emb)
    else scatterStore env useCache uts uis rest es' c

/-- The `except` handler of `encode_batch`: every position of
`uncached_indices` still holding the `None` placeholder is replaced by a zero
vector of the configured dimension. -/
def zeroFill [Zero α] (env : EmbedEnv α) (uis : List Nat)
    (es : List (Option (List α))) : List (Option (List α)) :=
  uis.foldl (fun acc idx =>
    match acc[idx]? with
    | some none => acc.set idx (some (zeroVec env))
    | _ => acc) es

/-- `encode_batch(texts, batch_size, use_cache)`: cache scan, chunked model
calls, scatter-and-store, and the zero-fill recovery on failure.  Result
positions are `Option`s mirroring the `None` placeholders of the Python list;
the contract proofs show they are all `some` on return. -/
def encode_batch [Zero α] (env : EmbedEnv α) (cache : CacheState α) (texts : List String)
    (batchSize : Nat) (useCache : Bool) : List (Option (List α)) × CacheState α :=
  if texts = [] then ([], cache)
  else
    let scan := batchScan env cache useCache texts 0
    if scan.2.1 = [] then (scan.1, cache)
    else
      match chunkEncode env batchSize scan.2.1 with
      | .error _ => (zeroFill env scan.2.2 scan.1, cache)
      | .ok bes =>
        match scatterStore env useCache scan.2.1 scan.2.2 (scan.2.2.zip bes) scan.1 cache with
        | (es', c', true) => (es', c')
        | (es', c', false) => (zeroFill env scan.2.2 es', c')

/-- Characterisation of the vector `encode_batch` produces for a given input
text (given the entry cache and whether the model backend call succeeds):
blank texts map to the zero vector, cache hits to the cached vector, and
uncached texts to the freshly computed vector — or, when the backend fails,
to the zero vector. -/
def batchExpected [Zero α] (env : EmbedEnv α) (cache : CacheState α)
    (useCache ok : Bool) (t : String) : List α :=
  if isBlank t then zeroVec env
  else
    match (if useCache then get_from_cache cache (get_cache_key env t) else none) with
    | some v => v
    | none => if ok then env.modelVec t else zeroVec env

/-- Whether a text goes to the pending (`uncached_texts`) list during the scan
phase of `encode_batch`. -/
def scanPending (env : EmbedEnv α) (cache : CacheState α) (useCache : Bool)
    (t : String) : Bool :=
  !isBlank t &&
    (if useCache then (get_from_cache cache (get_cache_key env t)).isNone else true)

/-- Python `np.dot` on two 1-D arrays. -/
def npDot (a b : List ℝ) : ℝ := (List.zipWith (fun x y => x * y) a b).sum

/-- Python `np.linalg.norm`: the Euclidean norm. -/
noncomputable def npNorm (a : List ℝ) : ℝ := Real.sqrt (npDot a a)

/-- `similarity(text1, text2, method)`: embeds both texts (threading the cache
through the two `encode_single` calls), then computes the requested score; an
unknown `method` raises `ValueError` (modelled as `.error` carrying the
message). -/
noncomputable def similarity (env : EmbedEnv ℝ) (cache : CacheState ℝ)
    (text1 text2 method : String) : Except String (ℝ × CacheState ℝ) :=
  let r1 := encode_single env cache text1 true
  let r2 := encode_single env r1.2 text2 true
  if method = "cosine" then
    .ok (npDot r1.1 r2.1 / (npNorm r1.1 * npNorm r2.1), r2.2)
  else if method = "dot" then
    .ok (npDot r1.1 r2.1, r2.2)
  else
    .error ("지원하지 않는 유사도 방법: " ++ method)

/-- The denominator of the `cosine` branch of `similarity`, exactly as the
code computes it (no guard against zero). -/
noncomputable def cosineDenom (env : EmbedEnv ℝ) (cache : CacheState ℝ)
    (text1 text2 : String) : ℝ :=
  let r1 := encode_single env cache text1 true
  let r2 := encode_single env r1.2 text2 true
  npNorm r1.1 * npNorm r2.1

/-- One element of the list built by `find_most_similar`. -/
structure SimEntry where
  index : Nat
  text : String
  similarity : ℝ

/-- The comparison realising Python's stable
`sort(key=lambda x: x['similarity'], reverse=True)`. -/
noncomputable def simDescLe (a b : SimEntry) : Bool :=
  decide (b.similarity ≤ a.similarity)

/-- `find_most_similar(query, candidates, top_k)`: embeds the query and (via
the batch path) all candidates, scores each candidate by `np.dot` against the
query, sorts descending by similarity (stable), and keeps the first `top_k`.
The `getD` defaults are never taken: the batch contract proofs show every
candidate position is `some` and every index is in range. -/
noncomputable def find_most_similar (env : EmbedEnv ℝ) (cache : CacheState ℝ)
    (query : String) (candidates : List String) (topK : Nat) :
    List SimEntry × CacheState ℝ :=
  if candidates = [] then ([], cache)
  else
    let rq := encode_single env cache query true
    let rc := encode_batch env rq.2 candidates 32 true
    let sims := rc.1.enum.map (fun p =>
      { index := p.1, text := candidates.getD p.1 "",
        similarity := npDot rq.1 (p.2.getD []) : SimEntry })
    ((sims.mergeSort simDescLe).take topK, rc.2)

/-- The `similarities` list built by `find_most_similar` before sorting. -/
noncomputable def simsList (env : EmbedEnv ℝ) (cache : CacheState ℝ)
    (query : String) (candidates : List String) : List SimEntry :=
  (encode_batch env (encode_single env cache query true).2 candidates 32 true).1.enum.map
    (fun p =>
      { index := p.1, text := candidates.getD p.1 "",
        similarity := npDot (encode_single env cache query true).1 (p.2.getD []) : SimEntry })

/-- A concrete service instance over integer vectors, used to evaluate the
embedding pipeline on closed inputs. -/
def envInt : EmbedEnv Int where
  modelName := "jhgan/ko-sroberta-multitask"
  embeddingDim := 2
  md5hex := fun s => s
  modelVec := fun t => [Int.ofNat t.length, 1]
  modelOk := true
  writeOk := fun _ => true

/-- The same concrete instance with an unavailable model backend. -/
def envIntFail : EmbedEnv Int where
  modelName := "jhgan/ko-sroberta-multitask"
  embeddingDim := 2
  md5hex := fun s => s
  modelVec := fun t => [Int.ofNat t.length, 1]
  modelOk := false
  writeOk := fun _ => true

/-- A concrete cache holding one corrupted entry for the text `"안녕"`. -/
def cacheCorrupt : CacheState Int :=
  [(get_cache_key envInt "안녕", CacheEntry.corrupted)]

/-- A concrete service instance over real vectors, used to evaluate the
similarity helpers on closed inputs. -/
noncomputable def envR : EmbedEnv ℝ where
  modelName := "jhgan/ko-sroberta-multitask"
  embeddingDim := 2
  md5hex := fun s => s
  modelVec := fun _ => [1, 0]
  modelOk := true
  writeOk := fun _ => true

end KoreanEmbeddings

namespace GeminiService

/-- Pydantic `KoreanAnalysis`. -/
structure KoreanAnalysis where
  original_query : String
  processed_query : String
  tokenized : List String
  keywords : List String

/-- Pydantic `GenerateRequest` (validated request body of `POST /generate`). -/
structure GenerateRequest where
  query : String
  context : String
  korean_analysis : Option KoreanAnalysis
  user_id : Option String

/-- Pydantic `GenerateResponse`. Wall-clock `processing_time` is carried as an
opaque rational supplied by the environment. -/
structure GenerateResponse where
  response : String
  model_used : String
  processing_time : ℚ
  context_length : Nat
  korean_optimized : Bool

/-- A raised `HTTPException` (status code and detail). -/
structure HttpError where
  status_code : Nat
  detail : String

/-- `self.model_name` of `GeminiRAGService` — fixed at construction. -/
def modelName : String := "gemini-1.5-flash"

/-- State and external behaviour of the process:
`inited` is the `initialized` flag left by `initialize()` (false when no API
key is configured or configuration failed);
`apiCandidates` models the in-flight Gemini call for a prompt — either the
texts of `response.candidates` or a raised exception message;
`elapsed` is the measured wall-clock duration in seconds. -/
structure GeminiEnv where
  inited : Bool
  apiCandidates : String → Except String (List String)
  elapsed : ℚ

/-- `create_korean_prompt`: the base Korean RAG prompt, with the
Korean-analysis block spliced in before the question when present. -/
def create_korean_prompt (query context : String) (ka : Option KoreanAnalysis) : String :=
  let base := "당신은 한국어 문서 기반 질의응답 전문가입니다. \n제공된 문서 내용을 바탕으로 사용자의 질문에 정확하고 도움이 되는 답변을 제공하세요.\n\n**답변 지침:**\n1. 제공된 문서 내용을 기반으로만 답변하세요\n2. 문서에 없는 내용은 추측하지 마세요\n3. 한국어로 자연스럽고 정확하게 답변하세요\n4. 구체적인 정보와 예시를 포함하세요\n5. 만약 문서 내용이 질문과 관련이 없다면 그렇게 알려주세요\n\n**사용자 질문:** " ++ query ++ "\n\n**관련 문서 내용:**\n" ++ context ++ "\n\n**답변:**"
  match ka with
  | none => base
  | some a =>
    let koreanInfo := "\n**한국어 분석 정보:**\n- 처리된 쿼리: " ++ a.processed_query ++
      "\n- 주요 키워드: " ++ String.intercalate ", " a.keywords ++
      "\n- 토큰: " ++ String.intercalate ", " a.tokenized ++ "\n\n"
    base.replace "**사용자 질문:**" (koreanInfo ++ "**사용자 질문:**")

/-- The templated fallback answer returned when the Gemini API is not
initialized: it echoes the query and `request.context[:500]` (with an
ellipsis when the context was longer). -/
def fallbackResponse (req : GenerateRequest) : String :=
  "제공된 문서 내용을 기반으로 답변드리겠습니다.\n\n**질문:** " ++ req.query ++
  "\n\n**관련 문서 내용:**\n" ++ req.context.take 500 ++
  (if req.context.length > 500 then "..." else "") ++
  "\n\n**답변:** \n문서 내용을 검토한 결과, 한국어 자연어 처리 시스템과 관련된 정보를 확인할 수 있습니다. 더 정확한 AI 응답을 위해서는 Gemini API 키 설정이 필요합니다.\n\n⚠️ 현재 Gemini API 키가 설정되지 않아 제한된 응답을 제공하고 있습니다. 완전한 AI 응답을 위해 `export GEMINI_API_KEY=your_api_key` 명령으로 API 키를 설정해 주세요."

/-- `GeminiRAGService.generate_response`: fallback response when not
initialized, otherwise prompt construction and the Gemini call, whose
exception surfaces as `HTTPException(500, ...)`. -/
def service_generate (env : GeminiEnv) (req : GenerateRequest) :
    Except HttpError GenerateResponse :=
  if env.inited = false then
    .ok { response := fallbackResponse req
          model_used := "fallback-mode"
          processing_time := env.elapsed
          context_length := req.context.length
          korean_optimized := false }
  else
    match env.apiCandidates (create_korean_prompt req.query req.context req.korean_analysis) with
    | .error e => .error ⟨500, "응답 생성 중 오류 발생: " ++ e⟩
    | .ok cands =>
      .ok { response :=
              match cands with
              | [] => "죄송합니다. 응답을 생성할 수 없습니다. 다시 시도해 주세요."
              | c :: _ => c.trim
            model_used := modelName
            processing_time := env.elapsed
            context_length := req.context.length
            korean_optimized := true }

/-- The `POST /generate` endpoint handler: input validation (blank query or
context → `HTTPException(400, ...)`) before delegating to the service; an
`HTTPException` raised downstream is re-raised unchanged. -/
def generate_endpoint (env : GeminiEnv) (req : GenerateRequest) :
    Except HttpError GenerateResponse :=
  if isBlank req.query then .error ⟨400, "쿼리가 비어있습니다."⟩
  else if isBlank req.context then .error ⟨400, "컨텍스트가 비어있습니다."⟩
  else service_generate env req

/-- A concrete degraded-state process (no API key configured). -/
def envDegraded : GeminiEnv where
  inited := false
  apiCandidates := fun _ => .ok ["ok"]
  elapsed := 0

/-- A concrete initialized process whose in-flight Gemini call raises. -/
def envApiDown : GeminiEnv where
  inited := true
  apiCandidates := fun _ => .error "boom"
  elapsed := 0

/-- A concrete valid request body. -/
def reqDemo : GenerateRequest where
  query := "질문"
  context := "문서 내용"
  korean_analysis := none
  user_id := some "default"

end GeminiService

namespace KoreanEmbeddings

variable {α : Type}

theorem batchScan_nil [Zero α] (env : EmbedEnv α) (cache : CacheState α) (uc : Bool)
    (i : Nat) : batchScan env cache uc [] i = ([], [], []) := rfl

theorem batchScan_cons [Zero α] (env : EmbedEnv α) (cache : CacheState α) (uc : Bool)
    (t : String) (ts : List String) (i : Nat) :
    batchScan env cache uc (t :: ts) i =
      (if isBlank t then
        (some (zeroVec env) :: (batchScan env cache uc ts (i + 1)).1,
         (batchScan env cache uc ts (i + 1)).2.1,
         (batchScan env cache uc ts (i + 1)).2.2)
       else
         match (if uc then get_from_cache cache (get_cache_key env t) else none) with
         | some v =>
           (some v :: (batchScan env cache uc ts (i + 1)).1,
            (batchScan env cache uc ts (i + 1)).2.1,
            (batchScan env cache uc ts (i + 1)).2.2)
         | none =>
           (none :: (batchScan env cache uc ts (i + 1)).1,
            t :: (batchScan env cache uc ts (i + 1)).2.1,
            i :: (batchScan env cache uc ts (i + 1)).2.2)) := rfl

theorem batchScan_indices_ge [Zero α] (env : EmbedEnv α) (cache : CacheState α) (uc : Bool) :
    ∀ (ts : List String) (i : Nat), ∀ j ∈ (batchScan env cache uc ts i).2.2, i ≤ j := by
  intro ts
  induction ts with
  | nil => intro i j hj; simp [batchScan_nil] at hj
  | cons t ts ih =>
    intro i j hj
    rw [batchScan_cons] at hj
    by_cases hb : isBlank t
    · simp only [hb, if_true] at hj
      exact Nat.le_of_succ_le (ih (i + 1) j hj)
    · simp only [hb, if_false] at hj
      cases hL : (if uc then get_from_cache cache (get_cache_key env t) else none) with
      | some v =>
        simp only [hL] at hj
        exact Nat.le_of_succ_le (ih (i + 1) j hj)
      | none =>
        simp only [hL, Bool.false_eq_true, if_false, List.mem_cons] at hj
        rcases hj with h | hj
        · omega
        · exact Nat.le_of_succ_le (ih (i + 1) j hj)

theorem batchScan_uts_eq_filter [Zero α] (env : EmbedEnv α) (cache : CacheState α)
    (uc : Bool) : ∀ (ts : List String) (i : Nat),
    (batchScan env cache uc ts i).2.1 = ts.filter (scanPending env cache uc) := by
  intro ts
  induction ts with
  | nil => intro i; simp [batchScan_nil]
  | cons t ts ih =>
    intro i
    rw [batchScan_cons, List.filter_cons]
    by_cases hb : isBlank t
    · simp [hb, scanPending, ih (i + 1)]
    · cases hL : (if uc then get_from_cache cache (get_cache_key env t) else none) with
      | some v =>
        have hp : scanPending env cache uc t = false := by
          cases huc : uc with
          | false => simp [huc] at hL
          | true =>
            simp only [huc, if_true] at hL
            simp [scanPending, hb, huc, hL]
        simp [hb, hL, hp, ih (i + 1)]
      | none =>
        have hp : scanPending env cache uc t = true := by
          cases huc : uc with
          | false => simp [scanPending, hb, huc]
          | true =>
            simp only [huc, if_true] at hL
            simp [scanPending, hb, huc, hL]
        simp [hb, hL, hp, ih (i + 1)]

theorem batchExpected_of_not_pending [Zero α] (env : EmbedEnv α) (cache : CacheState α)
    (uc : Bool) (t : String) (hp : scanPending env cache uc t = false) (ok ok' : Bool) :
    batchExpected env cache uc ok t = batchExpected env cache uc ok' t := by
  unfold batchExpected
  by_cases hb : isBlank t
  · simp [hb]
  · cases hL : (if uc then get_from_cache cache (get_cache_key env t) else none) with
    | some v => simp [hb, hL]
    | none =>
      exfalso
      cases huc : uc with
      | false => simp [scanPending, hb, huc] at hp
      | true =>
        rw [huc] at hL
        simp only [if_true] at hL
        simp [scanPending, hb, huc, hL] at hp

theorem chunkEncode_ok (env : EmbedEnv α) (batchSize : Nat) (hbs : batchSize ≠ 0)
    (hm : env.modelOk = true) :
    ∀ (ts : List String), chunkEncode env batchSize ts = .ok (ts.map env.modelVec) := by
  have H : ∀ (n : Nat) (ts : List String), ts.length ≤ n →
      chunkEncode env batchSize ts = .ok (ts.map env.modelVec) := by
    intro n
    induction n with
    | zero =>
      intro ts h
      have hts : ts = [] := List.eq_nil_of_length_eq_zero (Nat.le_zero.mp h)
      subst hts
      rw [chunkEncode]
      simp [hbs]
    | succ n ih =>
      intro ts h
      rw [chunkEncode]
      by_cases hts : ts = []
      · simp [hts, hbs]
      · have hlen : 0 < ts.length := List.length_pos.mpr hts
        have hbs' : 0 < batchSize := Nat.pos_of_ne_zero hbs
        have hdrop : (ts.drop batchSize).length ≤ n := by
          simp only [List.length_drop]
          omega
        rw [ih (ts.drop batchSize) hdrop]
        simp [hbs, hts, modelCall, hm, ← List.map_take, ← List.map_drop,
          ← List.map_append]
  intro ts
  exact H ts.length ts (Nat.le_refl _)

theorem chunkEncode_err (env : EmbedEnv α) (batchSize : Nat) (ts : List String)
    (h : env.modelOk = false ∨ batchSize = 0) (hts : ts ≠ []) :
    chunkEncode env batchSize ts = .error () := by
  rw [chunkEncode]
  rcases h with hm | hbs
  · by_cases hbs : batchSize = 0
    · simp [hbs]
    · simp [hbs, hts, modelCall, hm]
  · simp [hbs]

theorem batchExpected_blank [Zero α] (env : EmbedEnv α) (cache : CacheState α)
    (uc ok : Bool) (t : String) (hb : isBlank t = true) :
    batchExpected env cache uc ok t = zeroVec env := by
  unfold batchExpected
  simp [hb]

theorem batchExpected_hit [Zero α] (env : EmbedEnv α) (cache : CacheState α)
    (uc ok : Bool) (t : String) (v : List α) (hb : isBlank t = false)
    (hL : (if uc then get_from_cache cache (get_cache_key env t) else none) = some v) :
    batchExpected env cache uc ok t = v := by
  unfold batchExpected
  simp [hb, hL]

theorem batchExpected_pending [Zero α] (env : EmbedEnv α) (cache : CacheState α)
    (uc ok : Bool) (t : String) (hb : isBlank t = false)
    (hL : (if uc then get_from_cache cache (get_cache_key env t) else none) = none) :
    batchExpected env cache uc ok t = if ok then env.modelVec t else zeroVec env := by
  unfold batchExpected
  simp [hb, hL]

theorem scatterStore_nil (env : EmbedEnv α) (uc : Bool) (uts : List String)
    (uis : List Nat) (es : List (Option (List α))) (c : CacheState α) :
    scatterStore env uc uts uis [] es c = (es, c, true) := rfl

theorem scatterStore_cons (env : EmbedEnv α) (uc : Bool) (uts : List String)
    (uis : List Nat) (idx : Nat) (emb : List α) (rest : List (Nat × List α))
    (es : List (Option (List α))) (c : CacheState α) :
    scatterStore env uc uts uis ((idx, emb) :: rest) es c =
      (if uc then
        match uis.findIdx? (fun j => j == idx) with
        | none => (es.set idx (some emb), c, false)
        | some j =>
          match uts[j]? with
          | none => (es.set idx (some emb), c, false)
          | some t =>
            scatterStore env uc uts uis rest (es.set idx (some emb))
              (save_to_cache env c (get_cache_key env t) emb)
       else scatterStore env uc uts uis rest (es.set idx (some emb)) c) := rfl

theorem scatterStore_shift (env : EmbedEnv α) (uc : Bool) (t : String) (i : Nat)
    (uts : List String) (uis : List Nat) :
    ∀ (pairs : List (Nat × List α)) (es : List (Option (List α))) (c : CacheState α),
      (∀ p ∈ pairs, p.1 ≠ i) →
      scatterStore env uc (t :: uts) (i :: uis) pairs es c =
        scatterStore env uc uts uis pairs es c := by
  intro pairs
  induction pairs with
  | nil => intro es c _; rfl
  | cons p rest ih =>
    intro es c hne
    obtain ⟨idx, emb⟩ := p
    have hidx : (i == idx) = false :=
      beq_eq_false_iff_ne.mpr (Ne.symm (hne (idx, emb) (List.mem_cons_self _ _)))
    rw [scatterStore_cons, scatterStore_cons]
    cases uc with
    | false =>
      simp only [Bool.false_eq_true, if_false]
      exact ih _ _ (fun p hp => hne p (List.mem_cons_of_mem _ hp))
    | true =>
      simp only [if_true, List.findIdx?_cons, hidx, Bool.false_eq_true, if_false,
        List.findIdx?_succ]
      cases hf : uis.findIdx? (fun j => j == idx) with
      | none => simp [hf]
      | some j =>
        simp only [hf, Option.map_some', List.getElem?_cons_succ]
        cases hg : uts[j]? with
        | none => simp [hg]
        | some t' =>
          simp only [hg]
          exact ih _ _ (fun p hp => hne p (List.mem_cons_of_mem _ hp))

theorem scanScatter_ok [Zero α] (env : EmbedEnv α) (cache : CacheState α) (uc : Bool) :
    ∀ (ts : List String) (i : Nat) (pre : List (Option (List α))) (c : CacheState α),
      pre.length = i →
      ∃ c', scatterStore env uc (batchScan env cache uc ts i).2.1
          (batchScan env cache uc ts i).2.2
          ((batchScan env cache uc ts i).2.2.zip
            ((batchScan env cache uc ts i).2.1.map env.modelVec))
          (pre ++ (batchScan env cache uc ts i).1) c
        = (pre ++ ts.map (fun t => some (batchExpected env cache uc true t)), c', true) := by
  intro ts
  induction ts with
  | nil =>
    intro i pre c _
    exact ⟨c, by simp [batchScan_nil, scatterStore_nil]⟩
  | cons t ts ih =>
    intro i pre c hpre
    rw [batchScan_cons]
    by_cases hb : isBlank t
    · obtain ⟨c', hc'⟩ := ih (i + 1) (pre ++ [some (zeroVec env)]) c (by simp [hpre])
      refine ⟨c', ?_⟩
      simp only [hb, if_true, List.map_cons, batchExpected_blank env cache uc true t hb]
      simpa using hc'
    · rw [Bool.not_eq_true] at hb
      cases hL : (if uc then get_from_cache cache (get_cache_key env t) else none) with
      | some v =>
        obtain ⟨c', hc'⟩ := ih (i + 1) (pre ++ [some v]) c (by simp [hpre])
        refine ⟨c', ?_⟩
        simp only [hb, Bool.false_eq_true, if_false, hL, List.map_cons,
          batchExpected_hit env cache uc true t v hb hL]
        simpa using hc'
      | none =>
        simp only [hb, Bool.false_eq_true, if_false, hL, List.map_cons, List.zip_cons_cons,
          batchExpected_pending env cache uc true t hb hL, if_true]
        rw [scatterStore_cons]
        have hset : (pre ++ none :: (batchScan env cache uc ts (i + 1)).1).set i
            (some (env.modelVec t)) =
            pre ++ some (env.modelVec t) :: (batchScan env cache uc ts (i + 1)).1 := by
          rw [List.set_append_right _ _ (by omega), hpre]
          simp
        have hne : ∀ p ∈ ((batchScan env cache uc ts (i + 1)).2.2.zip
            ((batchScan env cache uc ts (i + 1)).2.1.map env.modelVec)), p.1 ≠ i := by
          intro p hp
          have hmem : p.1 ∈ (batchScan env cache uc ts (i + 1)).2.2 :=
            (List.of_mem_zip hp).1
          have := batchScan_indices_ge env cache uc ts (i + 1) p.1 hmem
          omega
        cases uc with
        | false =>
          obtain ⟨c', hc'⟩ := ih (i + 1) (pre ++ [some (env.modelVec t)]) c (by simp [hpre])
          refine ⟨c', ?_⟩
          simp only [Bool.false_eq_true, if_false, hset]
          rw [scatterStore_shift env false t i _ _ _ _ _ hne]
          simpa using hc'
        | true =>
          obtain ⟨c', hc'⟩ := ih (i + 1) (pre ++ [some (env.modelVec t)])
            (save_to_cache env c (get_cache_key env t) (env.modelVec t)) (by simp [hpre])
          refine ⟨c', ?_⟩
          simp only [if_true, List.findIdx?_cons, beq_self_eq_true, List.getElem?_cons_zero,
            hset]
          rw [scatterStore_shift env true t i _ _ _ _ _ hne]
          simpa using hc'

theorem zeroFill_nil [Zero α] (env : EmbedEnv α) (es : List (Option (List α))) :
    zeroFill env [] es = es := rfl

theorem zeroFill_cons [Zero α] (env : EmbedEnv α) (i : Nat) (uis : List Nat)
    (es : List (Option (List α))) :
    zeroFill env (i :: uis) es =
      zeroFill env uis
        (match es[i]? with
         | some none => es.set i (some (zeroVec env))
         | _ => es) := rfl

theorem scanZeroFill [Zero α] (env : EmbedEnv α) (cache : CacheState α) (uc : Bool) :
    ∀ (ts : List String) (i : Nat) (pre : List (Option (List α))),
      pre.length = i →
      zeroFill env (batchScan env cache uc ts i).2.2 (pre ++ (batchScan env cache uc ts i).1)
        = pre ++ ts.map (fun t => some (batchExpected env cache uc false t)) := by
  intro ts
  induction ts with
  | nil => intro i pre _; simp [batchScan_nil, zeroFill_nil]
  | cons t ts ih =>
    intro i pre hpre
    rw [batchScan_cons]
    by_cases hb : isBlank t
    · simp only [hb, if_true, List.map_cons, batchExpected_blank env cache uc false t hb]
      have h := ih (i + 1) (pre ++ [some (zeroVec env)]) (by simp [hpre])
      simpa using h
    · rw [Bool.not_eq_true] at hb
      cases hL : (if uc then get_from_cache cache (get_cache_key env t) else none) with
      | some v =>
        simp only [hb, Bool.false_eq_true, if_false, hL, List.map_cons,
          batchExpected_hit env cache uc false t v hb hL]
        have h := ih (i + 1) (pre ++ [some v]) (by simp [hpre])
        simpa using h
      | none =>
        simp only [hb, Bool.false_eq_true, if_false, hL, List.map_cons,
          batchExpected_pending env cache uc false t hb hL]
        rw [zeroFill_cons]
        have hget : (pre ++ none :: (batchScan env cache uc ts (i + 1)).1)[i]? =
            some none := by
          rw [List.getElem?_append_right (by omega)]
          simp [hpre]
        have hset : (pre ++ none :: (batchScan env cache uc ts (i + 1)).1).set i
            (some (zeroVec env)) =
            pre ++ some (zeroVec env) :: (batchScan env cache uc ts (i + 1)).1 := by
          rw [List.set_append_right _ _ (by omega), hpre]
          simp
        simp only [hget, hset, Bool.false_eq_true, if_false]
        have h := ih (i + 1) (pre ++ [some (zeroVec env)]) (by simp [hpre])
        simpa using h

theorem encode_batch_fst_eq [Zero α] (env : EmbedEnv α) (cache : CacheState α)
    (texts : List String) (batchSize : Nat) (uc : Bool) :
    (encode_batch env cache texts batchSize uc).1 =
      texts.map (fun t => some (batchExpected env cache uc
        (env.modelOk && (batchSize != 0)) t)) := by
  unfold encode_batch
  by_cases hts : texts = []
  · simp [hts]
  · simp only [hts, if_false]
    by_cases huts : (batchScan env cache uc texts 0).2.1 = []
    · simp only [huts, if_true]
      obtain ⟨c', hc'⟩ := scanScatter_ok env cache uc texts 0 [] cache rfl
      rw [huts] at hc'
      simp only [List.map_nil, List.zip_nil_right, scatterStore_nil, List.nil_append,
        Prod.mk.injEq] at hc'
      rw [hc'.1]
      apply List.map_congr_left
      intro t ht
      have hpend : scanPending env cache uc t = false := by
        have hf := batchScan_uts_eq_filter env cache uc texts 0
        rw [huts] at hf
        have := (List.filter_eq_nil_iff.mp hf.symm) t ht
        simpa using this
      exact congrArg some (batchExpected_of_not_pending env cache uc t hpend true _)
    · simp only [huts, if_false]
      by_cases hflag : env.modelOk = true ∧ batchSize ≠ 0
      · rw [chunkEncode_ok env batchSize hflag.2 hflag.1]
        obtain ⟨c', hc'⟩ := scanScatter_ok env cache uc texts 0 [] cache rfl
        simp only [List.nil_append] at hc'
        have hflagtrue : (env.modelOk && (batchSize != 0)) = true := by
          simp [hflag.1, hflag.2]
        simp only [hc', hflagtrue]
      · have herr : env.modelOk = false ∨ batchSize = 0 := by
          rcases Bool.eq_false_or_eq_true env.modelOk with h | h
          · right
            by_contra hbs
            exact hflag ⟨h, hbs⟩
          · exact Or.inl h
        rw [chunkEncode_err env batchSize _ herr huts]
        have h := scanZeroFill env cache uc texts 0 [] rfl
        simp only [List.nil_append] at h
        rw [h]
        have : (env.modelOk && (batchSize != 0)) = false := by
          rcases herr with h' | h'
          · simp [h']
          · simp [h']
        rw [this]

theorem save_to_cache_mem (env : EmbedEnv α) (c : CacheState α) (k : String) (v : List α) :
    ∀ e ∈ save_to_cache env c k v, e ∈ c ∨ e.1 = k := by
  intro e he
  unfold save_to_cache rawCacheWrite at he
  by_cases hw : env.writeOk k
  · simp only [hw, if_true, List.mem_cons] at he
    rcases he with h | h
    · right; rw [h]
    · exact Or.inl h
  · simp only [hw, Bool.false_eq_true, if_false] at he
    exact Or.inl he

theorem scatterStore_cache_mem (env : EmbedEnv α) (uc : Bool) (uts : List String)
    (uis : List Nat) :
    ∀ (pairs : List (Nat × List α)) (es : List (Option (List α))) (c : CacheState α),
      ∀ e ∈ (scatterStore env uc uts uis pairs es c).2.1,
        e ∈ c ∨ ∃ t ∈ uts, e.1 = get_cache_key env t := by
  intro pairs
  induction pairs with
  | nil => intro es c e he; exact Or.inl he
  | cons p rest ih =>
    intro es c e he
    obtain ⟨idx, emb⟩ := p
    rw [scatterStore_cons] at he
    cases uc with
    | false =>
      simp only [Bool.false_eq_true, if_false] at he
      exact ih _ _ e he
    | true =>
      simp only [if_true] at he
      cases hf : uis.findIdx? (fun j => j == idx) with
      | none => simp only [hf] at he; exact Or.inl he
      | some j =>
        simp only [hf] at he
        cases hg : uts[j]? with
        | none => simp only [hg] at he; exact Or.inl he
        | some t =>
          simp only [hg] at he
          rcases ih _ _ e he with h | h
          · rcases save_to_cache_mem env c (get_cache_key env t) emb e h with h' | h'
            · exact Or.inl h'
            · exact Or.inr ⟨t, List.getElem?_mem hg, h'⟩
          · exact Or.inr h

theorem encode_batch_cache_mem [Zero α] (env : EmbedEnv α) (cache : CacheState α)
    (texts : List String) (batchSize : Nat) (uc : Bool) :
    ∀ e ∈ (encode_batch env cache texts batchSize uc).2,
      e ∈ cache ∨ ∃ t ∈ texts, isBlank t = false ∧ e.1 = get_cache_key env t := by
  intro e he
  unfold encode_batch at he
  by_cases hts : texts = []
  · simp only [hts, if_true] at he; exact Or.inl he
  · simp only [hts, if_false] at he
    by_cases huts : (batchScan env cache uc texts 0).2.1 = []
    · simp only [huts, if_true] at he; exact Or.inl he
    · simp only [huts, if_false] at he
      have main : ∀ bes, e ∈ (scatterStore env uc (batchScan env cache uc texts 0).2.1
          (batchScan env cache uc texts 0).2.2
          ((batchScan env cache uc texts 0).2.2.zip bes)
          (batchScan env cache uc texts 0).1 cache).2.1 →
          e ∈ cache ∨ ∃ t ∈ texts, isBlank t = false ∧ e.1 = get_cache_key env t := by
        intro bes hmem
        rcases scatterStore_cache_mem env uc _ _ _ _ _ e hmem with h | ⟨t, htu, hk⟩
        · exact Or.inl h
        · right
          rw [batchScan_uts_eq_filter env cache uc texts 0] at htu
          have hmem' := List.mem_filter.mp htu
          have hpend := hmem'.2
          unfold scanPending at hpend
          rw [Bool.and_eq_true] at hpend
          refine ⟨t, hmem'.1, ?_, hk⟩
          have := hpend.1
          rwa [Bool.not_eq_true'] at this
      cases hck : chunkEncode env batchSize (batchScan env cache uc texts 0).2.1 with
      | error err => simp only [hck] at he; exact Or.inl he
      | ok bes =>
        simp only [hck] at he
        rcases hsc : scatterStore env uc (batchScan env cache uc texts 0).2.1
            (batchScan env cache uc texts 0).2.2
            ((batchScan env cache uc texts 0).2.2.zip bes)
            (batchScan env cache uc texts 0).1 cache with ⟨es', c', ok⟩
        rw [hsc] at he
        cases ok with
        | true =>
          simp only at he
          exact main bes (by rw [hsc]; exact he)
        | false =>
          simp only at he
          exact main bes (by rw [hsc]; exact he)

theorem encode_single_fst_eq [Zero α] (env : EmbedEnv α) (cache : CacheState α)
    (t : String) (uc : Bool) :
    (encode_single env cache t uc).1 = batchExpected env cache uc env.modelOk t := by
  unfold encode_single batchExpected
  by_cases hb : isBlank t
  · simp [hb]
  · rw [Bool.not_eq_true] at hb
    cases hL : (if uc then get_from_cache cache (get_cache_key env t) else none) with
    | some v => simp [hb, hL]
    | none =>
      simp only [hb, Bool.false_eq_true, if_false, hL]
      cases hm : env.modelOk with
      | false => simp
      | true => cases uc <;> simp

theorem get_from_cache_save (env : EmbedEnv α) (c : CacheState α) (k : String)
    (v : List α) :
    get_from_cache (save_to_cache env c k v) k =
      if env.writeOk k then some v else get_from_cache c k := by
  unfold save_to_cache rawCacheWrite
  by_cases hw : env.writeOk k
  · simp only [hw, if_true]
    unfold get_from_cache rawCacheRead cacheFind
    simp
  · simp [hw]

/-- C1: for every batch, `encode_batch` returns one vector per input text in
input order — position `i` holds exactly the vector determined by `texts[i]`
(blank → zero vector, cache hit → cached vector, otherwise the freshly
computed vector, or, when the model backend call fails, a zero vector of
the configured embedding dimension) — so the length/order contract holds for
every cache hit/miss mix and even when the backend is unavailable. -/
theorem claim_C1_encode_batch_contract [Zero α] (env : EmbedEnv α) (cache : CacheState α)
    (texts : List String) (batchSize : Nat) (uc : Bool) :
    (encode_batch env cache texts batchSize uc).1.length = texts.length ∧
    (encode_batch env cache texts batchSize uc).1 =
      texts.map (fun t => some (batchExpected env cache uc
        (env.modelOk && (batchSize != 0)) t)) ∧
    (zeroVec env).length = env.embeddingDim := by
  refine ⟨?_, encode_batch_fst_eq env cache texts batchSize uc, by simp [zeroVec]⟩
  rw [encode_batch_fst_eq]
  simp

/-- C2: a blank (empty or whitespace-only) text yields a zero vector of the
configured dimension from `encode_single` and at its position in
`encode_batch`, independently of the cache contents and without the cache
being consulted or populated for it: `encode_single` leaves the cache
untouched, and every entry added by `encode_batch` is keyed by a non-blank
input text. -/
theorem claim_C2_blank_zero_vector [Zero α] (env : EmbedEnv α) (t : String)
    (ht : isBlank t = true) :
    (∀ (cache : CacheState α) (uc : Bool),
        encode_single env cache t uc = (zeroVec env, cache)) ∧
    (∀ (cache : CacheState α) (texts : List String) (batchSize : Nat) (uc : Bool)
        (i : Nat), texts[i]? = some t →
        (encode_batch env cache texts batchSize uc).1[i]? = some (some (zeroVec env))) ∧
    (zeroVec env).length = env.embeddingDim ∧
    (∀ (cache : CacheState α) (texts : List String) (batchSize : Nat) (uc : Bool),
        ∀ e ∈ (encode_batch env cache texts batchSize uc).2,
          e ∈ cache ∨ ∃ t' ∈ texts, isBlank t' = false ∧ e.1 = get_cache_key env t') := by
  refine ⟨?_, ?_, by simp [zeroVec], ?_⟩
  · intro cache uc
    unfold encode_single
    simp [ht]
  · intro cache texts batchSize uc i hi
    rw [encode_batch_fst_eq, List.getElem?_map, hi]
    simp [batchExpected_blank env cache uc _ t ht]
  · intro cache texts batchSize uc
    exact encode_batch_cache_mem env cache texts batchSize uc

theorem claim_C2_blank_zero_vector_witness :
    encode_single envInt ([] : CacheState Int) " " true = (zeroVec envInt, []) ∧
    (encode_batch envInt ([] : CacheState Int) ["a", " "] 32 true).1[1]? =
      some (some (zeroVec envInt)) := by
  have h := claim_C2_blank_zero_vector envInt " " (by decide)
  exact ⟨h.1 [] true, h.2.1 [] ["a", " "] 32 true 1 (by decide)⟩

/-- C3: duplicate texts in a batch are resolved independently and produce
identical vectors, each stored under the key of its exact source text; in
particular `["안녕하세요", "", "안녕하세요"]` yields `[v, zero, v]` with the
same vector `v` at positions 0 and 2 and the cache holding `v` under the key
of `"안녕하세요"`. -/
theorem claim_C3_duplicates :
    (∀ {α : Type} [Zero α] (env : EmbedEnv α) (cache : CacheState α)
        (texts : List String) (batchSize : Nat) (uc : Bool) (i j : Nat) (t : String),
        texts[i]? = some t → texts[j]? = some t →
        (encode_batch env cache texts batchSize uc).1[i]? =
          (encode_batch env cache texts batchSize uc).1[j]?) ∧
    (encode_batch envInt [] ["안녕하세요", "", "안녕하세요"] 32 true).1 =
      [some (envInt.modelVec "안녕하세요"), some (zeroVec envInt),
       some (envInt.modelVec "안녕하세요")] ∧
    get_from_cache (encode_batch envInt [] ["안녕하세요", "", "안녕하세요"] 32 true).2
      (get_cache_key envInt "안녕하세요") = some (envInt.modelVec "안녕하세요") := by
  refine ⟨?_, ?_, ?_⟩
  · intro α _ env cache texts batchSize uc i j t hi hj
    rw [encode_batch_fst_eq, List.getElem?_map, List.getElem?_map, hi, hj]
  · simp only [encode_batch, chunkEncode_ok envInt 32 (by decide) rfl]
    decide
  · simp only [encode_batch, chunkEncode_ok envInt 32 (by decide) rfl]
    decide

theorem claim_C3_duplicates_witness :
    (encode_batch envInt ([] : CacheState Int) ["x", "", "x"] 32 true).1[0]? =
      (encode_batch envInt ([] : CacheState Int) ["x", "", "x"] 32 true).1[2]? :=
  claim_C3_duplicates.1 envInt [] ["x", "", "x"] 32 true 0 2 "x" (by decide) (by decide)

/-- C6: cache I/O failures never reach the caller — a raw read failure makes
`_get_from_cache` report absence (so a corrupted entry causes `encode_single`
to fall through and recompute with the model), and a raw write failure leaves
the cache exactly as it was, with `_save_to_cache` returning normally. -/
theorem claim_C6_cache_errors_swallowed [Zero α] (env : EmbedEnv α) :
    (∀ (c : CacheState α) (k : String), rawCacheRead c k = .error () →
        get_from_cache c k = none) ∧
    (∀ (c : CacheState α) (k : String) (v : List α),
        rawCacheWrite env c k v = .error () → save_to_cache env c k v = c) ∧
    (∀ (c : CacheState α) (t : String), isBlank t = false →
        cacheFind c (get_cache_key env t) = some CacheEntry.corrupted →
        env.modelOk = true →
        (encode_single env c t true).1 = env.modelVec t) := by
  refine ⟨?_, ?_, ?_⟩
  · intro c k h
    unfold get_from_cache
    rw [h]
  · intro c k v h
    unfold save_to_cache
    rw [h]
  · intro c t hb hcorr hm
    have hnone : get_from_cache c (get_cache_key env t) = none := by
      unfold get_from_cache rawCacheRead
      rw [hcorr]
    rw [encode_single_fst_eq,
      batchExpected_pending env c true env.modelOk t hb (by simpa using hnone), hm]
    simp

theorem claim_C6_cache_errors_swallowed_witness :
    (encode_single envInt cacheCorrupt "안녕" true).1 = envInt.modelVec "안녕" :=
  (claim_C6_cache_errors_swallowed envInt).2.2 cacheCorrupt "안녕" (by decide)
    (by decide) (by decide)

/-- C7: on a non-blank text, `encode_single` follows the
blank-check → cache lookup → model call → cache-store path: a hit returns the
cached vector unchanged, a miss with an available model returns the fresh
vector and stores it under the text's key, and a miss with a failing model
call returns a zero vector of the configured dimension instead of
propagating the error. -/
theorem claim_C7_encode_single_path [Zero α] (env : EmbedEnv α) (cache : CacheState α)
    (t : String) (hb : isBlank t = false) :
    (∀ v, get_from_cache cache (get_cache_key env t) = some v →
        encode_single env cache t true = (v, cache)) ∧
    (get_from_cache cache (get_cache_key env t) = none → env.modelOk = true →
        encode_single env cache t true =
          (env.modelVec t,
           save_to_cache env cache (get_cache_key env t) (env.modelVec t))) ∧
    (get_from_cache cache (get_cache_key env t) = none → env.modelOk = false →
        encode_single env cache t true = (zeroVec env, cache)) := by
  refine ⟨?_, ?_, ?_⟩
  · intro v hv
    unfold encode_single
    simp [hb, hv]
  · intro hv hm
    unfold encode_single
    simp [hb, hv, hm]
  · intro hv hm
    unfold encode_single
    simp [hb, hv, hm]

theorem encode_single_repeat [Zero α] (env : EmbedEnv α) (cache : CacheState α)
    (t : String) :
    (encode_single env (encode_single env cache t true).2 t true).1 =
      (encode_single env cache t true).1 := by
  by_cases hb : isBlank t
  · simp [encode_single, hb]
  · rw [Bool.not_eq_true] at hb
    cases hL : get_from_cache cache (get_cache_key env t) with
    | some v =>
      have h1 : encode_single env cache t true = (v, cache) := by
        simp [encode_single, hb, hL]
      rw [h1, h1]
    | none =>
      cases hm : env.modelOk with
      | false =>
        have h1 : encode_single env cache t true = (zeroVec env, cache) := by
          simp [encode_single, hb, hL, hm]
        rw [h1, h1]
      | true =>
        have h1 : encode_single env cache t true =
            (env.modelVec t,
             save_to_cache env cache (get_cache_key env t) (env.modelVec t)) := by
          simp [encode_single, hb, hL, hm]
        rw [h1]
        by_cases hw : env.writeOk (get_cache_key env t)
        · have h2 : get_from_cache (save_to_cache env cache (get_cache_key env t)
              (env.modelVec t)) (get_cache_key env t) = some (env.modelVec t) := by
            rw [get_from_cache_save]
            simp [hw]
          simp [encode_single, hb, h2]
        · have hsave : save_to_cache env cache (get_cache_key env t)
              (env.modelVec t) = cache := by
            unfold save_to_cache rawCacheWrite
            simp [hw]
          rw [hsave]
          simp [encode_single, hb, hL, hm]

theorem npDot_self_nonneg (a : List ℝ) : 0 ≤ npDot a a := by
  induction a with
  | nil => simp [npDot]
  | cons x xs ih =>
    simp only [npDot, List.zipWith_cons_cons, List.sum_cons]
    unfold npDot at ih
    nlinarith [mul_self_nonneg x]

theorem npDot_self_pos (a : List ℝ) (h : ∃ x ∈ a, x ≠ 0) : 0 < npDot a a := by
  induction a with
  | nil => simp at h
  | cons x xs ih =>
    simp only [npDot, List.zipWith_cons_cons, List.sum_cons]
    rcases h with ⟨y, hy, hyne⟩
    rcases List.mem_cons.mp hy with h' | h'
    · have hxne : x ≠ 0 := h' ▸ hyne
      have h1 : 0 < x * x := mul_self_pos.mpr hxne
      have h2 : 0 ≤ npDot xs xs := npDot_self_nonneg xs
      unfold npDot at h2
      nlinarith
    · have h1 : 0 < npDot xs xs := ih ⟨y, h', hyne⟩
      have h2 : 0 ≤ x * x := mul_self_nonneg x
      unfold npDot at h1
      nlinarith

theorem npDot_self_all_zero (a : List ℝ) (h : ∀ x ∈ a, x = 0) : npDot a a = 0 := by
  induction a with
  | nil => simp [npDot]
  | cons x xs ih =>
    simp only [npDot, List.zipWith_cons_cons, List.sum_cons]
    have hx : x = 0 := h x (List.mem_cons_self _ _)
    have hxs : npDot xs xs = 0 := ih (fun y hy => h y (List.mem_cons_of_mem _ hy))
    unfold npDot at hxs
    rw [hx, hxs]
    ring

theorem npNorm_zeroVec (env : EmbedEnv ℝ) : npNorm (zeroVec env) = 0 := by
  unfold npNorm
  rw [npDot_self_all_zero _ (fun x hx => by
    simp only [zeroVec] at hx
    exact List.eq_of_mem_replicate hx)]
  exact Real.sqrt_zero

theorem claim_C7_encode_single_path_witness :
    encode_single envIntFail ([] : CacheState Int) "안녕" true = (zeroVec envIntFail, []) ∧
    encode_single envInt ([] : CacheState Int) "안녕" true =
      (envInt.modelVec "안녕",
       save_to_cache envInt [] (get_cache_key envInt "안녕") (envInt.modelVec "안녕")) := by
  refine ⟨?_, ?_⟩
  · exact (claim_C7_encode_single_path envIntFail [] "안녕" (by decide)).2.2
      (by decide) (by decide)
  · exact (claim_C7_encode_single_path envInt [] "안녕" (by decide)).2.1
      (by decide) (by decide)

theorem exists_ne_zero_of_npNorm_ne_zero (a : List ℝ) (h : npNorm a ≠ 0) :
    ∃ x ∈ a, x ≠ 0 := by
  by_contra hall
  push_neg at hall
  apply h
  unfold npNorm
  rw [npDot_self_all_zero a hall, Real.sqrt_zero]

/-- C4: `similarity` with method `cosine` returns the dot product of the two
embeddings divided by the product of their norms (in particular exactly `1`
for two identical texts whose embedding has a nonzero coordinate), with
method `dot` the raw dot product, and for every other method value a raised
`ValueError` naming the method, never a silent default. -/
theorem claim_C4_similarity_methods (env : EmbedEnv ℝ) (cache : CacheState ℝ)
    (t1 t2 : String) :
    (similarity env cache t1 t2 "cosine" =
      .ok (npDot (encode_single env cache t1 true).1
             (encode_single env (encode_single env cache t1 true).2 t2 true).1 /
           (npNorm (encode_single env cache t1 true).1 *
            npNorm (encode_single env (encode_single env cache t1 true).2 t2 true).1),
          (encode_single env (encode_single env cache t1 true).2 t2 true).2)) ∧
    (similarity env cache t1 t2 "dot" =
      .ok (npDot (encode_single env cache t1 true).1
             (encode_single env (encode_single env cache t1 true).2 t2 true).1,
          (encode_single env (encode_single env cache t1 true).2 t2 true).2)) ∧
    (∀ m : String, m ≠ "cosine" → m ≠ "dot" →
      similarity env cache t1 t2 m = .error ("지원하지 않는 유사도 방법: " ++ m)) ∧
    (t1 = t2 → (∃ x ∈ (encode_single env cache t1 true).1, x ≠ 0) →
      similarity env cache t1 t2 "cosine" =
        .ok (1, (encode_single env (encode_single env cache t1 true).2 t2 true).2)) := by
  refine ⟨rfl, rfl, ?_, ?_⟩
  · intro m hm1 hm2
    simp only [similarity]
    rw [if_neg hm1, if_neg hm2]
  · intro h12 hx
    subst h12
    have hrep := encode_single_repeat env cache t1
    have h1 : similarity env cache t1 t1 "cosine" =
      .ok (npDot (encode_single env cache t1 true).1
             (encode_single env (encode_single env cache t1 true).2 t1 true).1 /
           (npNorm (encode_single env cache t1 true).1 *
            npNorm (encode_single env (encode_single env cache t1 true).2 t1 true).1),
          (encode_single env (encode_single env cache t1 true).2 t1 true).2) := rfl
    rw [h1, hrep]
    have hd : npNorm (encode_single env cache t1 true).1 *
        npNorm (encode_single env cache t1 true).1 =
        npDot (encode_single env cache t1 true).1 (encode_single env cache t1 true).1 := by
      unfold npNorm
      exact Real.mul_self_sqrt (npDot_self_nonneg _)
    rw [hd, div_self (ne_of_gt (npDot_self_pos _ hx))]

theorem claim_C4_similarity_methods_witness :
    similarity envR [] "a" "a" "cosine" =
      .ok (1, (encode_single envR (encode_single envR [] "a" true).2 "a" true).2) ∧
    similarity envR [] "a" "a" "euclid" =
      .error ("지원하지 않는 유사도 방법: " ++ "euclid") := by
  constructor
  · have hx : ∃ x ∈ (encode_single envR ([] : CacheState ℝ) "a" true).1, x ≠ 0 := by
      have he : (encode_single envR ([] : CacheState ℝ) "a" true).1 = [1, 0] := rfl
      rw [he]
      exact ⟨1, by simp, one_ne_zero⟩
    exact (claim_C4_similarity_methods envR [] "a" "a").2.2.2 rfl hx
  · exact (claim_C4_similarity_methods envR [] "a" "a").2.2.1 "euclid"
      (by decide) (by decide)

/-- C10: the division in the `cosine` branch is unguarded — the score is
always the dot product divided by `cosineDenom`, that denominator is `0`
whenever either input text is blank (its embedding is the zero vector), and
it can only be nonzero when both texts are non-blank and both embeddings
have a nonzero coordinate. -/
theorem claim_C10_cosine_division_unguarded (env : EmbedEnv ℝ) (cache : CacheState ℝ)
    (t1 t2 : String) :
    (similarity env cache t1 t2 "cosine" =
      .ok (npDot (encode_single env cache t1 true).1
             (encode_single env (encode_single env cache t1 true).2 t2 true).1 /
           cosineDenom env cache t1 t2,
          (encode_single env (encode_single env cache t1 true).2 t2 true).2)) ∧
    (isBlank t1 = true → cosineDenom env cache t1 t2 = 0) ∧
    (isBlank t2 = true → cosineDenom env cache t1 t2 = 0) ∧
    (cosineDenom env cache t1 t2 ≠ 0 →
      isBlank t1 = false ∧ isBlank t2 = false ∧
      (∃ x ∈ (encode_single env cache t1 true).1, x ≠ 0) ∧
      (∃ x ∈ (encode_single env (encode_single env cache t1 true).2 t2 true).1, x ≠ 0)) := by
  have hcd : cosineDenom env cache t1 t2 =
      npNorm (encode_single env cache t1 true).1 *
      npNorm (encode_single env (encode_single env cache t1 true).2 t2 true).1 := rfl
  refine ⟨rfl, ?_, ?_, ?_⟩
  · intro hb1
    have he1 : (encode_single env cache t1 true).1 = zeroVec env := by
      simp [encode_single, hb1]
    rw [hcd, he1, npNorm_zeroVec, zero_mul]
  · intro hb2
    have he2 : (encode_single env (encode_single env cache t1 true).2 t2 true).1 =
        zeroVec env := by
      simp [encode_single, hb2]
    rw [hcd, he2, npNorm_zeroVec, mul_zero]
  · intro hden
    rw [hcd] at hden
    obtain ⟨hn1, hn2⟩ := mul_ne_zero_iff.mp hden
    refine ⟨?_, ?_, exists_ne_zero_of_npNorm_ne_zero _ hn1,
      exists_ne_zero_of_npNorm_ne_zero _ hn2⟩
    · cases hb : isBlank t1 with
      | false => rfl
      | true =>
        exfalso
        apply hn1
        have he1 : (encode_single env cache t1 true).1 = zeroVec env := by
          simp [encode_single, hb]
        rw [he1, npNorm_zeroVec]
    · cases hb : isBlank t2 with
      | false => rfl
      | true =>
        exfalso
        apply hn2
        have he2 : (encode_single env (encode_single env cache t1 true).2 t2 true).1 =
            zeroVec env := by
          simp [encode_single, hb]
        rw [he2, npNorm_zeroVec]

theorem claim_C10_cosine_division_unguarded_witness :
    cosineDenom envR [] "" "a" = 0 :=
  (claim_C10_cosine_division_unguarded envR [] "" "a").2.1 (by decide)

end KoreanEmbeddings

namespace GeminiService

/-- C8: with the Gemini API not configured (degraded state), a valid request
to `POST /generate` yields HTTP 200 whose body is the canned template echoing
the query and at most 500 characters of the context, with
`model_used = "fallback-mode"` and `korean_optimized = false`, and the
external model is never consulted (the result is the same for every possible
behaviour of the external API). -/
theorem claim_C8_degraded_fallback (env : GeminiEnv) (req : GenerateRequest)
    (hinit : env.inited = false) (hq : isBlank req.query = false)
    (hc : isBlank req.context = false) :
    generate_endpoint env req =
      .ok { response := fallbackResponse req
            model_used := "fallback-mode"
            processing_time := env.elapsed
            context_length := req.context.length
            korean_optimized := false } ∧
    fallbackResponse req =
      "제공된 문서 내용을 기반으로 답변드리겠습니다.\n\n**질문:** " ++ req.query ++
      "\n\n**관련 문서 내용:**\n" ++ req.context.take 500 ++
      (if req.context.length > 500 then "..." else "") ++
      "\n\n**답변:** \n문서 내용을 검토한 결과, 한국어 자연어 처리 시스템과 관련된 정보를 확인할 수 있습니다. 더 정확한 AI 응답을 위해서는 Gemini API 키 설정이 필요합니다.\n\n⚠️ 현재 Gemini API 키가 설정되지 않아 제한된 응답을 제공하고 있습니다. 완전한 AI 응답을 위해 `export GEMINI_API_KEY=your_api_key` 명령으로 API 키를 설정해 주세요." ∧
    (req.context.take 500).length ≤ 500 ∧
    (∀ api₁ api₂ : String → Except String (List String),
      generate_endpoint { env with apiCandidates := api₁ } req =
      generate_endpoint { env with apiCandidates := api₂ } req) := by
  refine ⟨?_, rfl, ?_, ?_⟩
  · simp [generate_endpoint, hq, hc, service_generate, hinit]
  · rw [String.take_eq]
    show (req.context.data.take 500).length ≤ 500
    simp
  · intro api₁ api₂
    simp [generate_endpoint, hq, hc, service_generate, hinit]

theorem claim_C8_degraded_fallback_witness :
    generate_endpoint envDegraded reqDemo =
      .ok { response := fallbackResponse reqDemo
            model_used := "fallback-mode"
            processing_time := envDegraded.elapsed
            context_length := reqDemo.context.length
            korean_optimized := false } :=
  (claim_C8_degraded_fallback envDegraded reqDemo rfl (by decide) (by decide)).1

/-- C9: `POST /generate` rejects a blank query or blank context with
HTTP 400 before any generation is attempted, while a failure of the in-flight
Gemini call on an otherwise valid request surfaces as HTTP 500. -/
theorem claim_C9_endpoint_errors (env : GeminiEnv) (req : GenerateRequest) :
    (isBlank req.query = true →
      generate_endpoint env req = .error ⟨400, "쿼리가 비어있습니다."⟩) ∧
    (isBlank req.query = false → isBlank req.context = true →
      generate_endpoint env req = .error ⟨400, "컨텍스트가 비어있습니다."⟩) ∧
    (∀ e, isBlank req.query = false → isBlank req.context = false →
      env.inited = true →
      env.apiCandidates (create_korean_prompt req.query req.context req.korean_analysis)
        = .error e →
      generate_endpoint env req = .error ⟨500, "응답 생성 중 오류 발생: " ++ e⟩) := by
  refine ⟨?_, ?_, ?_⟩
  · intro hq
    simp [generate_endpoint, hq]
  · intro hq hc
    simp [generate_endpoint, hq, hc]
  · intro e hq hc hinit happ
    simp [generate_endpoint, hq, hc, service_generate, hinit, happ]

theorem claim_C9_endpoint_errors_witness :
    generate_endpoint envApiDown { reqDemo with query := " " } =
      .error ⟨400, "쿼리가 비어있습니다."⟩ ∧
    generate_endpoint envApiDown { reqDemo with context := "" } =
      .error ⟨400, "컨텍스트가 비어있습니다."⟩ ∧
    generate_endpoint envApiDown reqDemo =
      .error ⟨500, "응답 생성 중 오류 발생: " ++ "boom"⟩ := by
  refine ⟨?_, ?_, ?_⟩
  · exact (claim_C9_endpoint_errors envApiDown _).1 (by decide)
  · exact (claim_C9_endpoint_errors envApiDown _).2.1 (by decide) (by decide)
  · exact (claim_C9_endpoint_errors envApiDown reqDemo).2.2 "boom" (by decide) (by decide)
      rfl rfl

end GeminiService

namespace KoreanEmbeddings

theorem find_most_similar_fst_eq (env : EmbedEnv ℝ) (cache : CacheState ℝ)
    (query : String) (candidates : List String) (topK : Nat)
    (hc : candidates ≠ []) :
    (find_most_similar env cache query candidates topK).1 =
      ((simsList env cache query candidates).mergeSort simDescLe).take topK := by
  simp only [find_most_similar, simsList]
  rw [if_neg hc]

theorem simsList_length (env : EmbedEnv ℝ) (cache : CacheState ℝ)
    (query : String) (candidates : List String) :
    (simsList env cache query candidates).length = candidates.length := by
  unfold simsList
  rw [List.length_map, List.enum_length, encode_batch_fst_eq, List.length_map]

theorem encode_batch_fst_eq_32 (env : EmbedEnv ℝ) (c : CacheState ℝ)
    (candidates : List String) :
    (encode_batch env c candidates 32 true).1 =
      candidates.map (fun t => some (batchExpected env c true env.modelOk t)) := by
  rw [encode_batch_fst_eq]
  simp only [show ((32 : Nat) != 0) = true from rfl, Bool.and_true]

theorem simsList_get (env : EmbedEnv ℝ) (cache : CacheState ℝ)
    (query : String) (candidates : List String) (k : Nat)
    (hk : k < (simsList env cache query candidates).length) :
    (simsList env cache query candidates).get ⟨k, hk⟩ =
      { index := k, text := candidates.getD k ""
        similarity := npDot (encode_single env cache query true).1
          (batchExpected env (encode_single env cache query true).2 true env.modelOk
            (candidates.getD k "")) } := by
  have hk' : k < candidates.length := by
    rw [simsList_length] at hk
    exact hk
  have hgd : candidates.getD k "" = candidates.get ⟨k, hk'⟩ := by
    rw [List.getD_eq_getElem?_getD, List.getElem?_eq_getElem hk']
    rfl
  unfold simsList
  simp only [List.get_eq_getElem, List.getElem_map, List.getElem_enum,
    encode_batch_fst_eq_32, Option.getD_some]
  rw [hgd]
  simp [List.get_eq_getElem]

theorem simsList_get_index (env : EmbedEnv ℝ) (cache : CacheState ℝ)
    (query : String) (candidates : List String) (k : Nat)
    (hk : k < (simsList env cache query candidates).length) :
    ((simsList env cache query candidates).get ⟨k, hk⟩).index = k := by
  rw [simsList_get]

theorem simsList_pairwise_index (env : EmbedEnv ℝ) (cache : CacheState ℝ)
    (query : String) (candidates : List String) :
    List.Pairwise (fun a b => a.index < b.index)
      (simsList env cache query candidates) := by
  rw [List.pairwise_iff_getElem]
  intro i j hi hj hij
  have h1 := simsList_get_index env cache query candidates i hi
  have h2 := simsList_get_index env cache query candidates j hj
  rw [List.get_eq_getElem] at h1 h2
  rw [h1, h2]
  exact hij

theorem simsList_nodup (env : EmbedEnv ℝ) (cache : CacheState ℝ)
    (query : String) (candidates : List String) :
    (simsList env cache query candidates).Nodup :=
  (simsList_pairwise_index env cache query candidates).imp
    (fun h heq => by rw [heq] at h; exact Nat.lt_irrefl _ h)

theorem simsList_mem (env : EmbedEnv ℝ) (cache : CacheState ℝ)
    (query : String) (candidates : List String) (e : SimEntry)
    (he : e ∈ simsList env cache query candidates) :
    e.index < candidates.length ∧ e.text = candidates.getD e.index "" ∧
    e.similarity = npDot (encode_single env cache query true).1
      (batchExpected env (encode_single env cache query true).2 true env.modelOk
        (candidates.getD e.index "")) := by
  rcases List.mem_iff_getElem.mp he with ⟨k, hk, hke⟩
  have hs := simsList_get env cache query candidates k hk
  rw [List.get_eq_getElem, hke] at hs
  have hidx : e.index = k := by rw [hs]
  rw [simsList_length] at hk
  refine ⟨by rw [hidx]; exact hk, ?_, ?_⟩
  · rw [hs]
  · rw [hs]

theorem simsList_get_self (env : EmbedEnv ℝ) (cache : CacheState ℝ)
    (query : String) (candidates : List String) (e : SimEntry)
    (he : e ∈ simsList env cache query candidates) :
    (simsList env cache query candidates)[e.index]? = some e := by
  rcases List.mem_iff_getElem.mp he with ⟨k, hk, hke⟩
  have hs := simsList_get env cache query candidates k hk
  rw [List.get_eq_getElem, hke] at hs
  have hidx : e.index = k := by rw [hs]
  rw [hidx, List.getElem?_eq_getElem hk, hke]

theorem simDescLe_trans (a b c : SimEntry) (hab : simDescLe a b) (hbc : simDescLe b c) :
    simDescLe a c := by
  simp only [simDescLe, decide_eq_true_eq] at hab hbc ⊢
  exact le_trans hbc hab

theorem simDescLe_total (a b : SimEntry) : simDescLe a b || simDescLe b a := by
  simp only [simDescLe]
  rcases le_total a.similarity b.similarity with h | h
  · simp [h]
  · simp [h]

theorem pair_sublist_of_get {β : Type} (l : List β) (i j : Nat)
    (hi : i < l.length) (hj : j < l.length) (hij : i < j) :
    List.Sublist [l.get ⟨i, hi⟩, l.get ⟨j, hj⟩] l := by
  have h1 : l.get ⟨i, hi⟩ ∈ l.take (i + 1) := by
    have hi' : i < (l.take (i + 1)).length := by
      rw [List.length_take]
      omega
    have : (l.take (i + 1)).get ⟨i, hi'⟩ = l.get ⟨i, hi⟩ := by
      simp [List.get_eq_getElem]
    rw [← this]
    exact List.get_mem _ _ _
  have h2 : l.get ⟨j, hj⟩ ∈ l.drop (i + 1) := by
    have hj' : j - (i + 1) < (l.drop (i + 1)).length := by
      rw [List.length_drop]
      omega
    have : (l.drop (i + 1)).get ⟨j - (i + 1), hj'⟩ = l.get ⟨j, hj⟩ := by
      simp only [List.get_eq_getElem, List.getElem_drop]
      congr 1
      omega
    rw [← this]
    exact List.get_mem _ _ _
  have hsub : List.Sublist ([l.get ⟨i, hi⟩] ++ [l.get ⟨j, hj⟩])
      (l.take (i + 1) ++ l.drop (i + 1)) :=
    List.Sublist.append (List.singleton_sublist.mpr h1) (List.singleton_sublist.mpr h2)
  rwa [List.take_append_drop] at hsub

theorem nodup_pair_sublist {β : Type} :
    ∀ (l : List β), l.Nodup → ∀ a b,
      List.Sublist [a, b] l → List.Sublist [b, a] l → a = b := by
  intro l
  induction l with
  | nil =>
    intro _ a b h1 _
    cases h1
  | cons c t ih =>
    intro hnd a b h1 h2
    have hct := List.nodup_cons.mp hnd
    cases h1 with
    | cons _ h1' =>
      cases h2 with
      | cons _ h2' => exact ih hct.2 a b h1' h2'
      | cons₂ _ h2' =>
        exfalso
        have : c ∈ t := h1'.subset (by simp)
        exact hct.1 this
    | cons₂ _ h1' =>
      cases h2 with
      | cons _ h2' =>
        exfalso
        have : c ∈ t := h2'.subset (by simp)
        exact hct.1 this
      | cons₂ _ h2' =>
        rfl

theorem pair_sublist_of_getElem_opt {β : Type} {l : List β} {i j : Nat} {a b : β}
    (hij : i < j) (ha : l[i]? = some a) (hb : l[j]? = some b) :
    List.Sublist [a, b] l := by
  rcases List.getElem?_eq_some_iff.mp ha with ⟨hi, hga⟩
  rcases List.getElem?_eq_some_iff.mp hb with ⟨hj, hgb⟩
  have h := pair_sublist_of_get l i j hi hj hij
  simpa [List.get_eq_getElem, hga, hgb] using h

theorem simsList_pair_sublist (env : EmbedEnv ℝ) (cache : CacheState ℝ)
    (query : String) (candidates : List String) (a b : SimEntry)
    (ha : a ∈ simsList env cache query candidates)
    (hb : b ∈ simsList env cache query candidates)
    (hab : a.index < b.index) :
    List.Sublist [a, b] (simsList env cache query candidates) :=
  pair_sublist_of_getElem_opt hab
    (simsList_get_self env cache query candidates a ha)
    (simsList_get_self env cache query candidates b hb)

theorem mergeSort_tie_index (env : EmbedEnv ℝ) (cache : CacheState ℝ)
    (query : String) (candidates : List String) (a b : SimEntry)
    (hsub : List.Sublist [a, b]
      ((simsList env cache query candidates).mergeSort simDescLe))
    (heq : a.similarity = b.similarity) :
    a.index < b.index ∨ a = b := by
  by_cases hab : a = b
  · exact Or.inr hab
  · left
    have ha : a ∈ simsList env cache query candidates := by
      have h := hsub.subset (show a ∈ [a, b] by simp)
      rwa [List.mem_mergeSort] at h
    have hb : b ∈ simsList env cache query candidates := by
      have h := hsub.subset (show b ∈ [a, b] by simp)
      rwa [List.mem_mergeSort] at h
    have hidx : a.index ≠ b.index := by
      intro h
      apply hab
      have h1 := simsList_get_self env cache query candidates a ha
      have h2 := simsList_get_self env cache query candidates b hb
      rw [h, h2] at h1
      exact Option.some.inj h1.symm
    rcases Nat.lt_or_ge a.index b.index with h | h
    · exact h
    · exfalso
      have hba : b.index < a.index := by omega
      have hsub2 : List.Sublist [b, a] (simsList env cache query candidates) :=
        simsList_pair_sublist env cache query candidates b a hb ha hba
      have hpw : List.Pairwise (fun x y => simDescLe x y = true) [b, a] := by
        constructor
        · intro x hx
          simp only [List.mem_singleton] at hx
          subst hx
          simp only [simDescLe, decide_eq_true_eq]
          exact heq.le
        · exact List.pairwise_singleton _ _
      have hsorted2 := List.sublist_mergeSort simDescLe_trans simDescLe_total hpw hsub2
      have hnd : ((simsList env cache query candidates).mergeSort simDescLe).Nodup :=
        ((List.mergeSort_perm (simsList env cache query candidates) simDescLe).nodup_iff).mpr
          (simsList_nodup env cache query candidates)
      exact hab (nodup_pair_sublist _ hnd a b hsub hsorted2)

/-- C5: `find_most_similar` returns `[]` for an empty candidate list and
otherwise exactly `min top_k (number of candidates)` entries, sorted by
non-increasing similarity, each carrying a candidate's original index, its
text and its dot-product score against the query, with ties broken by the
original candidate order (the sort is stable). -/
theorem claim_C5_find_most_similar (env : EmbedEnv ℝ) (cache : CacheState ℝ)
    (query : String) (candidates : List String) (topK : Nat) :
    (find_most_similar env cache query [] topK).1 = [] ∧
    (find_most_similar env cache query candidates topK).1.length =
      min topK candidates.length ∧
    List.Pairwise (fun a b => b.similarity ≤ a.similarity)
      (find_most_similar env cache query candidates topK).1 ∧
    (∀ e ∈ (find_most_similar env cache query candidates topK).1,
      e.index < candidates.length ∧ e.text = candidates.getD e.index "" ∧
      e.similarity = npDot (encode_single env cache query true).1
        (batchExpected env (encode_single env cache query true).2 true env.modelOk
          (candidates.getD e.index ""))) ∧
    (∀ (i j : Nat) (a b : SimEntry), i < j →
      (find_most_similar env cache query candidates topK).1[i]? = some a →
      (find_most_similar env cache query candidates topK).1[j]? = some b →
      a.similarity = b.similarity → a.index < b.index) := by
  by_cases hc : candidates = []
  · subst hc
    refine ⟨rfl, by simp [find_most_similar], by simp [find_most_similar], ?_, ?_⟩
    · intro e he
      simp [find_most_similar] at he
    · intro i j a b _ ha _ _
      simp [find_most_similar] at ha
  · have hE := find_most_similar_fst_eq env cache query candidates topK hc
    have hPW : List.Pairwise (fun x y => simDescLe x y = true)
        ((simsList env cache query candidates).mergeSort simDescLe) :=
      List.sorted_mergeSort simDescLe_trans simDescLe_total _
    refine ⟨rfl, ?_, ?_, ?_, ?_⟩
    · rw [hE, List.length_take, List.length_mergeSort, simsList_length]
    · rw [hE]
      exact ((hPW.sublist (List.take_sublist _ _)).imp
        (fun h => by
          have h' := of_decide_eq_true h
          exact h'))
    · intro e he
      rw [hE] at he
      have h1 : e ∈ (simsList env cache query candidates).mergeSort simDescLe :=
        (List.take_sublist _ _).subset he
      rw [List.mem_mergeSort] at h1
      exact simsList_mem env cache query candidates e h1
    · intro i j a b hij ha hb heq
      rw [hE] at ha hb
      have hsubR : List.Sublist [a, b]
          (((simsList env cache query candidates).mergeSort simDescLe).take topK) :=
        pair_sublist_of_getElem_opt hij ha hb
      have hsub : List.Sublist [a, b]
          ((simsList env cache query candidates).mergeSort simDescLe) :=
        hsubR.trans (List.take_sublist _ _)
      rcases mergeSort_tie_index env cache query candidates a b hsub heq with h | h
      · exact h
      · exfalso
        subst h
        rcases List.getElem?_eq_some_iff.mp ha with ⟨hi, hga⟩
        rcases List.getElem?_eq_some_iff.mp hb with ⟨hj, hgb⟩
        have hnd : (((simsList env cache query candidates).mergeSort simDescLe).take
            topK).Nodup := by
          have h1 : ((simsList env cache query candidates).mergeSort simDescLe).Nodup :=
            ((List.mergeSort_perm (simsList env cache query candidates)
              simDescLe).nodup_iff).mpr (simsList_nodup env cache query candidates)
          exact List.Pairwise.sublist (List.take_sublist _ _) h1
        have := (hnd.getElem_inj_iff).mp (hga.trans hgb.symm)
        omega

theorem claim_C5_find_most_similar_witness :
    (find_most_similar envR [] "q" ["a", "b"] 5).1.length = 2 ∧
    ((⟨0, "a", 1⟩ : SimEntry)).index < ((⟨1, "b", 1⟩ : SimEntry)).index := by
  have hS : simsList envR [] "q" ["a", "b"] =
      [⟨0, "a", npDot [1, 0] [1, 0]⟩, ⟨1, "b", npDot [1, 0] [1, 0]⟩] := by
    unfold simsList
    rw [encode_batch_fst_eq_32]
    rfl
  have hval : npDot [1, 0] [1, 0] = (1 : ℝ) := by
    norm_num [npDot]
  have hS' : simsList envR [] "q" ["a", "b"] =
      [⟨0, "a", (1 : ℝ)⟩, ⟨1, "b", (1 : ℝ)⟩] := by
    rw [hS, hval]
  have hsorted : List.mergeSort [(⟨0, "a", (1 : ℝ)⟩ : SimEntry), ⟨1, "b", (1 : ℝ)⟩]
      simDescLe = [⟨0, "a", (1 : ℝ)⟩, ⟨1, "b", (1 : ℝ)⟩] := by
    apply List.mergeSort_of_sorted
    constructor
    · intro x hx
      simp only [List.mem_singleton] at hx
      subst hx
      simp [simDescLe]
    · exact List.pairwise_singleton _ _
  have hR : (find_most_similar envR [] "q" ["a", "b"] 5).1 =
      [⟨0, "a", (1 : ℝ)⟩, ⟨1, "b", (1 : ℝ)⟩] := by
    rw [find_most_similar_fst_eq envR [] "q" ["a", "b"] 5 (by decide), hS', hsorted]
    rfl
  constructor
  · have h := (claim_C5_find_most_similar envR [] "q" ["a", "b"] 5).2.1
    simpa using h
  · exact (claim_C5_find_most_similar envR [] "q" ["a", "b"] 5).2.2.2.2 0 1
      ⟨0, "a", 1⟩ ⟨1, "b", 1⟩ (by decide)
      (by rw [hR]; rfl) (by rw [hR]; rfl) rfl

end KoreanEmbeddings
